import Mathlib

set_option maxRecDepth 8192

/-!
Verification of the hwg-analytics-hub utility scripts.

The repository has two independent Python scripts:

* `cleanup-script.py` — reads stdin as bytes, tries a strict UTF-8 decode,
  applies two `re.sub` substitutions (a quoted Supabase URL literal and a
  quoted three-segment JWT-shaped token), re-encodes and writes stdout;
  on decode failure it passes the bytes through unchanged.
* `python-server.py` — binds 0.0.0.0:8080 and answers every GET with a
  static diagnostic HTML page; a catch-all handler prints an error and
  lets the process end normally.

Text is modelled as the list of Unicode code points (Python `str` is a
code-point sequence); bytes as lists of naturals below 256.  The two
regular expressions contain no genuine nondeterminism: every character
class excludes both the literal dot and the three quote characters, so a
greedy match at a position is forced, and `re.sub`'s scan is exactly
"try a match at each position left to right, replace and resume after
the match, otherwise emit one character and advance".
-/

/-- Code points of a string literal. -/
def strTxt (s : String) : List Nat := s.data.map Char.toNat

/-- The three quote delimiters of the character class `["'` and backtick `]`. -/
def quoteCodes : List Nat := [34, 39, 96]

/-- The Supabase URL literal from the first pattern. -/
def urlTxt : List Nat := strTxt "https://piyqnldhdxkmuwqajkhz.supabase.co"

/-- Replacement body for the first pattern. -/
def urlReplTxt : List Nat := strTxt "REDACTED_SUPABASE_URL"

/-- The fixed first segment of the JWT-shaped token pattern. -/
def jwtHeadTxt : List Nat := strTxt "eyJhbGciOiJIUzI1NiIsInR5cCI6IkpXVCJ9"

/-- Replacement body for the second pattern. -/
def keyReplTxt : List Nat := strTxt "REDACTED_SUPABASE_KEY"

/-- Membership in the character class `[A-Za-z0-9_-]`. -/
def isB64 (c : Nat) : Bool :=
  (65 ≤ c && c ≤ 90) || (97 ≤ c && c ≤ 122) || (48 ≤ c && c ≤ 57) || c == 95 || c == 45

/-- Match of the first regex at a position: the character `c` at the position
must be one of the three quotes, and the following text must be the URL
literal closed by the same quote.  Returns how many characters after `c`
the match consumes. -/
def matchUrlQ (c : Nat) (rest : List Nat) : Option Nat :=
  if c ∈ quoteCodes ∧ rest.take (urlTxt.length + 1) = urlTxt ++ [c] then
    some (urlTxt.length + 1)
  else none

/-- Match of the second regex at a position: a quote, the fixed first segment,
a dot, a nonempty greedy `[A-Za-z0-9_-]+` run, a dot, another nonempty run,
and the same quote.  The greedy runs are forced to be the maximal
`takeWhile` runs because the class excludes the dot and the quotes. -/
def matchKeyQ (c : Nat) (rest : List Nat) : Option Nat :=
  if c ∈ quoteCodes ∧ rest.take (jwtHeadTxt.length + 1) = jwtHeadTxt ++ [46] then
    let r2 := rest.drop (jwtHeadTxt.length + 1)
    let w1 := r2.takeWhile isB64
    if w1 = [] then none
    else
      match r2.dropWhile isB64 with
      | 46 :: r4 =>
        let w2 := r4.takeWhile isB64
        if w2 = [] then none
        else
          match r4.dropWhile isB64 with
          | c2 :: _ =>
            if c2 = c then
              some (jwtHeadTxt.length + 1 + w1.length + 1 + w2.length + 1)
            else none
          | [] => none
      | _ => none
  else none

/-- The `re.sub` scan.  The first argument of the recursion is the number of
already-consumed characters of a match still to be skipped; `scanAux m rep 0`
is the scan itself: at each position try the matcher; on a match emit the
replacement and skip the consumed characters, otherwise emit the character
and move one position right. -/
def scanAux (m : Nat → List Nat → Option Nat) (rep : Nat → List Nat) :
    Nat → List Nat → List Nat
  | _, [] => []
  | k + 1, _ :: rest => scanAux m rep k rest
  | 0, c :: rest =>
    match m c rest with
    | some n => rep c ++ scanAux m rep n rest
    | none => c :: scanAux m rep 0 rest

/-- One `re.sub` pass over the whole text. -/
def scanSub (m : Nat → List Nat → Option Nat) (rep : Nat → List Nat)
    (s : List Nat) : List Nat :=
  scanAux m rep 0 s

/-- Whether some position of the text carries a match of the given matcher. -/
def scanHas (m : Nat → List Nat → Option Nat) : List Nat → Bool
  | [] => false
  | c :: rest => (m c rest).isSome || scanHas m rest

/-- First `re.sub` of `replace_supabase_credentials`: quoted URL literal. -/
def subUrl (s : List Nat) : List Nat :=
  scanSub matchUrlQ (fun c => c :: urlReplTxt ++ [c]) s

/-- Second `re.sub` of `replace_supabase_credentials`: quoted JWT token. -/
def subKey (s : List Nat) : List Nat :=
  scanSub matchKeyQ (fun c => c :: keyReplTxt ++ [c]) s

/-- `replace_supabase_credentials`: URL pass, then key pass. -/
def redactTxt (s : List Nat) : List Nat := subKey (subUrl s)

/-- Some position carries a quoted-URL match. -/
def hasUrlMatch (s : List Nat) : Bool := scanHas matchUrlQ s

/-- Some position carries a quoted-key match. -/
def hasKeyMatch (s : List Nat) : Bool := scanHas matchKeyQ s

/-- Whether a byte is a UTF-8 continuation byte `0x80..0xBF`. -/
def isCont (b : Nat) : Bool := 128 ≤ b && b < 192

/-- One step of strict UTF-8 decoding, exactly as in Python's
`bytes.decode('utf-8')`: given the lead byte `b` and the bytes after it,
return the decoded code point together with the number of continuation
bytes it consumes, or `none` on any malformed sequence.  Rejected are bad
continuation bytes, truncated sequences, overlong forms (leads
`0xC0/0xC1`, `0xE0` with a second byte below `0xA0`, `0xF0` with a second
byte below `0x90`), surrogates (`0xED` with a second byte of `0xA0` or
more) and code points above `U+10FFFF` (leads above `0xF4`, and `0xF4`
with a second byte of `0x90` or more). -/
def utf8Step (b : Nat) (rest : List Nat) : Option (Nat × Nat) :=
  if b < 128 then some (b, 0)
  else if b < 224 then
    if b < 194 then none
    else
      match rest with
      | b1 :: _ =>
        if isCont b1 = true then some ((b - 192) * 64 + (b1 - 128), 1) else none
      | [] => none
  else if b < 240 then
    match rest with
    | b1 :: b2 :: _ =>
      if isCont b1 = true ∧ isCont b2 = true ∧ (b = 224 → 160 ≤ b1) ∧
          (b = 237 → b1 < 160) then
        some ((b - 224) * 4096 + (b1 - 128) * 64 + (b2 - 128), 2)
      else none
    | _ => none
  else if b < 245 then
    match rest with
    | b1 :: b2 :: b3 :: _ =>
      if isCont b1 = true ∧ isCont b2 = true ∧ isCont b3 = true ∧
          (b = 240 → 144 ≤ b1) ∧ (b = 244 → b1 < 144) then
        some ((b - 240) * 262144 + (b1 - 128) * 4096 + (b2 - 128) * 64 +
          (b3 - 128), 3)
      else none
    | _ => none
  else none

/-- The decoding loop; the first argument counts continuation bytes of the
current sequence still to be passed over. -/
def utf8DecodeAux : Nat → List Nat → Option (List Nat)
  | _, [] => some []
  | k + 1, _ :: rest => utf8DecodeAux k rest
  | 0, b :: rest =>
    match utf8Step b rest with
    | some (c, k) => (utf8DecodeAux k rest).map (fun s => c :: s)
    | none => none

/-- Strict UTF-8 decoding of a byte list into code points. -/
def utf8Decode (bs : List Nat) : Option (List Nat) := utf8DecodeAux 0 bs

/-- UTF-8 encoding of one code point. -/
def utf8EncodeChar (c : Nat) : List Nat :=
  if c < 128 then [c]
  else if c < 2048 then [192 + c / 64, 128 + c % 64]
  else if c < 65536 then [224 + c / 4096, 128 + c / 64 % 64, 128 + c % 64]
  else [240 + c / 262144, 128 + c / 4096 % 64, 128 + c / 64 % 64, 128 + c % 64]

/-- UTF-8 encoding of a code-point list, as Python's `str.encode('utf-8')`. -/
def utf8Encode : List Nat → List Nat
  | [] => []
  | c :: cs => utf8EncodeChar c ++ utf8Encode cs

/-- The `__main__` block of `cleanup-script.py`: read stdin, try the strict
decode, on success redact and re-encode, on `UnicodeDecodeError` pass the
bytes through; either way the script falls off the end with exit status 0.
The pair is (bytes written to stdout, exit status). -/
def runRedactor (bs : List Nat) : List Nat × Nat :=
  match utf8Decode bs with
  | some s => (utf8Encode (redactTxt s), 0)
  | none => (bs, 0)

/-- The bytes the redactor writes to stdout. -/
def redactBytes (bs : List Nat) : List Nat := (runRedactor bs).1

/-- Bytes of a string literal under UTF-8. -/
def strBytes (s : String) : List Nat := utf8Encode (strTxt s)

/-- True when decoding the bytes either fails or yields text with no match
of either credential pattern at any position. -/
def residualFree (bs : List Nat) : Bool :=
  match utf8Decode bs with
  | none => true
  | some t => !(hasUrlMatch t || hasKeyMatch t)

/-! ### Concrete adversarial inputs

Two occurrences of a quoted credential can share the quote character
between them; `re.sub` consumes the shared quote with the first match and
leaves the second occurrence unreplaced. -/

/-- Double quote, URL, double quote, URL, double quote. -/
def urlOverlapTxt : List Nat := 34 :: urlTxt ++ 34 :: urlTxt ++ [34]

/-- The same input at the byte level (it is pure ASCII). -/
def urlOverlapBytes : List Nat := utf8Encode urlOverlapTxt

/-- The spec's example token segments. -/
def keySeg1 : List Nat := strTxt "abc123_-XYZ"

def keySeg2 : List Nat := strTxt "def456_-ABC"

/-- The spec's example JWT-shaped token. -/
def keyTokTxt : List Nat := jwtHeadTxt ++ 46 :: keySeg1 ++ 46 :: keySeg2

/-- Backtick, token, backtick, token, backtick. -/
def keyOverlapTxt : List Nat := 96 :: keyTokTxt ++ 96 :: keyTokTxt ++ [96]

/-! ### Separated occurrences

`joinSep sep [p0, p1, ..., pk]` is `p0 ++ sep ++ p1 ++ sep ++ ... ++ pk`:
an input carrying `k` occurrences of the credential `sep`, separated by the
segments `pi`.  A segment is `cleanSeg` when it contains no quote character
and does not begin with `h` (104) or `e` (101), the first characters of the
two credential literals; such segments can neither contain a match nor
complete one across a replacement's closing quote. -/

def joinSep (sep : List Nat) : List (List Nat) → List Nat
  | [] => []
  | [p] => p
  | p :: ps => p ++ sep ++ joinSep sep ps

def cleanSeg (p : List Nat) : Prop :=
  (∀ x ∈ p, x ∉ quoteCodes) ∧ p.head? ≠ some 104 ∧ p.head? ≠ some 101

instance cleanSegDecidable (p : List Nat) : Decidable (cleanSeg p) :=
  inferInstanceAs (Decidable ((∀ x ∈ p, x ∉ quoteCodes) ∧
    p.head? ≠ some 104 ∧ p.head? ≠ some 101))

/-! ### Model of `python-server.py` -/

/-- The configured port. -/
def PORT : Nat := 8080

/-- The configured bind host. -/
def HOST : String := "0.0.0.0"

/-- The constant text of the handler's f-string up to the port number,
with the version and host substituted in. -/
def htmlHead (version : String) : String :=
  "\n        <!DOCTYPE html>\n        <html>\n        <head>\n" ++
  "            <title>Python Test Server</title>\n            <style>\n" ++
  "                body \x7b font-family: Arial, sans-serif; max-width: 800px; margin: 0 auto; padding: 20px; \x7d\n" ++
  "                .success \x7b color: green; font-weight: bold; \x7d\n" ++
  "                .info \x7b background-color: #f8f9fa; padding: 10px; border-radius: 4px; \x7d\n" ++
  "            </style>\n        </head>\n        <body>\n" ++
  "            <h1>Server is Running!</h1>\n" ++
  "            <p class=\"success\">If you can see this page, the server is working correctly.</p>\n" ++
  "            \n            <div class=\"info\">\n                <h2>Server Information</h2>\n" ++
  "                <p>Server: Python " ++ version ++ "</p>\n" ++
  "                <p>Host: " ++ HOST ++ "</p>\n" ++
  "                <p>Port: "

/-- The constant text between the port number and the request path, with the
working directory substituted in. -/
def htmlMid (cwd : String) : String :=
  "</p>\n" ++
  "                <p>Working Directory: " ++ cwd ++ "</p>\n" ++
  "                <p>Request Path: "

/-- The constant text after the request path, with the formatted server time
substituted in. -/
def htmlTail (dateTime : String) : String :=
  "</p>\n" ++
  "                <p>Server Time: " ++ dateTime ++ "</p>\n" ++
  "            </div>\n        </body>\n        </html>\n        "

/-- The f-string HTML page of `TestHandler.do_GET`; runtime version, working
directory, request path and formatted time are the non-constant pieces. -/
def htmlPage (version cwd path dateTime : String) : String :=
  htmlHead version ++ toString PORT ++ htmlMid cwd ++ path ++ htmlTail dateTime

/-- An HTTP response as assembled by the handler: status line, headers sent
with `send_header`, body written to `wfile`. -/
structure HttpResponse where
  status : Nat
  headers : List (String × String)
  body : String

/-- `TestHandler.do_GET`: always status 200, the two headers, the page. -/
def do_GET (path version cwd dateTime : String) : HttpResponse :=
  ⟨200,
   [("Content-type", "text/html"), ("Access-Control-Allow-Origin", "*")],
   htmlPage version cwd path dateTime⟩

/-- Observable outcome of the server's `__main__` block: what was printed at
startup, whether `serve_forever` was reached, the diagnostic printed by the
catch-all `except Exception` handler, and the process exit status. -/
structure ServerRun where
  startupPrinted : List String
  served : Bool
  errPrint : Option String
  exitCode : Nat

/-- The startup banner printed after a successful bind. -/
def startupMessages : List String :=
  ["Server started at http://0.0.0.0:8080",
   "Try accessing:",
   "- http://localhost:8080/",
   "- http://127.0.0.1:8080/",
   "- http://192.168.18.20:8080/ (your IP)",
   "Press Ctrl+C to stop the server"]

/-- The `__main__` block of `python-server.py`.  `bindResult` is the outcome
of constructing the `TCPServer` (the error carries `str(e)`), `serveResult`
the outcome of `serve_forever` for an `Exception` escaping serving.  Either
failure lands in the catch-all handler, which prints one line and lets the
script end normally (exit status 0); a bind failure never reaches the
banner or the serving loop. -/
def serverMain (bindResult serveResult : Except String Unit) : ServerRun :=
  match bindResult with
  | Except.error e => ⟨[], false, some ("Error starting server: " ++ e), 0⟩
  | Except.ok _ =>
    match serveResult with
    | Except.error e => ⟨startupMessages, true, some ("Error starting server: " ++ e), 0⟩
    | Except.ok _ => ⟨startupMessages, true, none, 0⟩

/-! ### Sanity examples -/

example : redactTxt (strTxt "\"https://piyqnldhdxkmuwqajkhz.supabase.co\"") =
    strTxt "\"REDACTED_SUPABASE_URL\"" := by decide

example : urlTxt.length = 40 := by decide

example : redactTxt (strTxt "hello world") = strTxt "hello world" := by decide

example : redactBytes [255, 254, 0, 1] = [255, 254, 0, 1] := by decide

example : redactBytes (strBytes "héllo ✓") = strBytes "héllo ✓" := by decide

/-! ### Scanner lemmas -/

theorem scanAux_drop (m : Nat → List Nat → Option Nat) (rep : Nat → List Nat) :
    ∀ (s : List Nat) (k : Nat), scanAux m rep k s = scanAux m rep 0 (s.drop k) := by
  intro s
  induction s with
  | nil => intro k; cases k <;> rfl
  | cons c rest ih =>
    intro k
    cases k with
    | zero => rfl
    | succ k => simpa [scanAux] using ih k

theorem scanSub_nil (m : Nat → List Nat → Option Nat) (rep : Nat → List Nat) :
    scanSub m rep [] = [] := rfl

theorem scanSub_cons_some (m : Nat → List Nat → Option Nat) (rep : Nat → List Nat)
    {c : Nat} {rest : List Nat} {n : Nat} (h : m c rest = some n) :
    scanSub m rep (c :: rest) = rep c ++ scanSub m rep (rest.drop n) := by
  simp [scanSub, scanAux, h, scanAux_drop]

theorem scanSub_cons_none (m : Nat → List Nat → Option Nat) (rep : Nat → List Nat)
    {c : Nat} {rest : List Nat} (h : m c rest = none) :
    scanSub m rep (c :: rest) = c :: scanSub m rep rest := by
  simp [scanSub, scanAux, h]

theorem scanHas_cons (m : Nat → List Nat → Option Nat) (c : Nat) (rest : List Nat) :
    scanHas m (c :: rest) = ((m c rest).isSome || scanHas m rest) := rfl

/-- When no position matches, the scan is the identity. -/
theorem scanSub_id (m : Nat → List Nat → Option Nat) (rep : Nat → List Nat) :
    ∀ {s : List Nat}, scanHas m s = false → scanSub m rep s = s := by
  intro s
  induction s with
  | nil => intro _; rfl
  | cons c rest ih =>
    intro h
    rw [scanHas_cons, Bool.or_eq_false_iff] at h
    have hm : m c rest = none := Option.not_isSome_iff_eq_none.mp (by simp [h.1])
    rw [scanSub_cons_none m rep hm, ih h.2]

/-- A matcher that only fires on quote characters finds nothing inside a
quote-free segment: scanning skips it. -/
theorem scanSub_skip (m : Nat → List Nat → Option Nat) (rep : Nat → List Nat)
    (hm : ∀ c r n, m c r = some n → c ∈ quoteCodes) :
    ∀ {a : List Nat} (b : List Nat), (∀ x ∈ a, x ∉ quoteCodes) →
      scanSub m rep (a ++ b) = a ++ scanSub m rep b := by
  intro a
  induction a with
  | nil => intro b _; rfl
  | cons c a' ih =>
    intro b ha
    have hc : c ∉ quoteCodes := ha c (List.mem_cons_self c a')
    have hm0 : m c (a' ++ b) = none := by
      cases hmc : m c (a' ++ b) with
      | none => rfl
      | some n => exact absurd (hm _ _ _ hmc) hc
    rw [List.cons_append, scanSub_cons_none m rep hm0,
      ih b (fun x hx => ha x (List.mem_cons_of_mem c hx)), List.cons_append]

theorem scanHas_skip (m : Nat → List Nat → Option Nat)
    (hm : ∀ c r n, m c r = some n → c ∈ quoteCodes) :
    ∀ {a : List Nat} (b : List Nat), (∀ x ∈ a, x ∉ quoteCodes) →
      scanHas m (a ++ b) = scanHas m b := by
  intro a
  induction a with
  | nil => intro b _; rfl
  | cons c a' ih =>
    intro b ha
    have hc : c ∉ quoteCodes := ha c (List.mem_cons_self c a')
    have hm0 : m c (a' ++ b) = none := by
      cases hmc : m c (a' ++ b) with
      | none => rfl
      | some n => exact absurd (hm _ _ _ hmc) hc
    rw [List.cons_append, scanHas_cons, hm0,
      ih b (fun x hx => ha x (List.mem_cons_of_mem c hx))]
    rfl

theorem scanHas_of_no_quote (m : Nat → List Nat → Option Nat)
    (hm : ∀ c r n, m c r = some n → c ∈ quoteCodes)
    {a : List Nat} (ha : ∀ x ∈ a, x ∉ quoteCodes) : scanHas m a = false := by
  have := scanHas_skip m hm ([] : List Nat) ha
  simpa using this

/-! ### Matcher lemmas -/

theorem matchUrlQ_quote {c : Nat} {r : List Nat} {n : Nat}
    (h : matchUrlQ c r = some n) : c ∈ quoteCodes := by
  unfold matchUrlQ at h
  split at h
  · exact (by assumption : _ ∧ _).1
  · exact absurd h (by simp)

theorem matchKeyQ_quote {c : Nat} {r : List Nat} {n : Nat}
    (h : matchKeyQ c r = some n) : c ∈ quoteCodes := by
  unfold matchKeyQ at h
  split at h
  · exact (by assumption : _ ∧ _).1
  · exact absurd h (by simp)

theorem matchUrlQ_head {c : Nat} {r : List Nat} {n : Nat}
    (h : matchUrlQ c r = some n) : r.head? = some 104 := by
  unfold matchUrlQ at h
  split at h
  · rename_i hcond
    have htake := hcond.2
    have hu : urlTxt = 104 :: urlTxt.tail := by decide
    cases r with
    | nil =>
      rw [hu] at htake
      simp at htake
    | cons x r' =>
      rw [List.take_succ_cons, hu, List.cons_append] at htake
      injection htake with hx _
      simp [hx]
  · exact absurd h (by simp)

theorem matchKeyQ_head {c : Nat} {r : List Nat} {n : Nat}
    (h : matchKeyQ c r = some n) : r.head? = some 101 := by
  unfold matchKeyQ at h
  split at h
  · rename_i hcond
    have htake := hcond.2
    have hu : jwtHeadTxt = 101 :: jwtHeadTxt.tail := by decide
    cases r with
    | nil =>
      rw [hu] at htake
      simp at htake
    | cons x r' =>
      rw [List.take_succ_cons, hu, List.cons_append] at htake
      injection htake with hx _
      simp [hx]
  · exact absurd h (by simp)

/-- A successful match at the opening quote of a well-formed quoted URL. -/
theorem matchUrlQ_at {q : Nat} (hq : q ∈ quoteCodes) (b : List Nat) :
    matchUrlQ q (urlTxt ++ q :: b) = some (urlTxt.length + 1) := by
  unfold matchUrlQ
  rw [if_pos]
  refine ⟨hq, ?_⟩
  have : urlTxt ++ q :: b = (urlTxt ++ [q]) ++ b := by
    simp [List.append_assoc]
  rw [this, List.take_left' (by simp)]

theorem drop_cred (x : List Nat) (q : Nat) (b : List Nat) :
    (x ++ q :: b).drop (x.length + 1) = b := by
  have : x ++ q :: b = (x ++ [q]) ++ b := by
    simp [List.append_assoc]
  rw [this, List.drop_left' (by simp)]

theorem isB64_not_quote {c : Nat} (h : isB64 c = true) : c ∉ quoteCodes := by
  intro hc
  simp only [quoteCodes, List.mem_cons, List.not_mem_nil, or_false] at hc
  rcases hc with rfl | rfl | rfl <;> exact absurd h (by decide)

theorem isB64_quote_false {q : Nat} (hq : q ∈ quoteCodes) : isB64 q = false := by
  simp only [quoteCodes, List.mem_cons, List.not_mem_nil, or_false] at hq
  rcases hq with rfl | rfl | rfl <;> decide

/-- `takeWhile`/`dropWhile` stop exactly at the first failing element. -/
theorem whileFrontier (p : Nat → Bool) :
    ∀ (w : List Nat) (c : Nat) (t : List Nat), (∀ x ∈ w, p x = true) → p c = false →
      (w ++ c :: t).takeWhile p = w ∧ (w ++ c :: t).dropWhile p = c :: t := by
  intro w
  induction w with
  | nil =>
    intro c t _ hc
    constructor
    · simp [List.takeWhile_cons, hc]
    · simp [List.dropWhile_cons, hc]
  | cons x w' ih =>
    intro c t hw hc
    have hx : p x = true := hw x (List.mem_cons_self x w')
    have := ih c t (fun y hy => hw y (List.mem_cons_of_mem x hy)) hc
    constructor
    · simp [List.takeWhile_cons, hx, this.1]
    · simp [List.dropWhile_cons, hx, this.2]

/-- A successful match at the opening quote of a well-formed quoted token. -/
theorem matchKeyQ_at {q : Nat} (hq : q ∈ quoteCodes) {w1 w2 : List Nat}
    (hw1 : ∀ x ∈ w1, isB64 x = true) (h1 : w1 ≠ [])
    (hw2 : ∀ x ∈ w2, isB64 x = true) (h2 : w2 ≠ []) (b : List Nat) :
    matchKeyQ q (jwtHeadTxt ++ 46 :: (w1 ++ 46 :: (w2 ++ q :: b))) =
      some (jwtHeadTxt.length + 1 + w1.length + 1 + w2.length + 1) := by
  have hsplit : jwtHeadTxt ++ 46 :: (w1 ++ 46 :: (w2 ++ q :: b)) =
      (jwtHeadTxt ++ [46]) ++ (w1 ++ 46 :: (w2 ++ q :: b)) := by
    simp [List.append_assoc]
  have h46 : isB64 46 = false := by decide
  have hqb : isB64 q = false := isB64_quote_false hq
  have hf1 := whileFrontier isB64 w1 46 (w2 ++ q :: b) hw1 h46
  have hf2 := whileFrontier isB64 w2 q b hw2 hqb
  unfold matchKeyQ
  rw [if_pos]
  · rw [hsplit, List.drop_left' (by simp)]
    simp only [hf1.1, hf1.2]
    rw [if_neg (by simpa using h1)]
    simp only [hf2.1, hf2.2]
    rw [if_neg (by simpa using h2)]
    simp
  · refine ⟨hq, ?_⟩
    rw [hsplit, List.take_left' (by simp)]

/-! ### Separated occurrences -/

theorem joinSep_cons₂ (sep p p' : List Nat) (ps : List (List Nat)) :
    joinSep sep (p :: p' :: ps) = p ++ sep ++ joinSep sep (p' :: ps) := rfl

theorem quote_ne_of {q hbad : Nat} (hq : q ∈ quoteCodes)
    (hb : hbad = 104 ∨ hbad = 101) : q ≠ hbad := by
  simp only [quoteCodes, List.mem_cons, List.not_mem_nil, or_false] at hq
  rcases hq with rfl | rfl | rfl <;> rcases hb with rfl | rfl <;> decide

theorem joinSep_head (y : List Nat) {q hbad : Nat}
    (hqb : q ≠ hbad) {parts : List (List Nat)}
    (hps : ∀ p ∈ parts, p.head? ≠ some hbad) :
    (joinSep (q :: y) parts).head? ≠ some hbad := by
  cases parts with
  | nil => simp [joinSep]
  | cons p ps =>
    cases ps with
    | nil => exact hps p (List.mem_cons_self p [])
    | cons p' ps' =>
      rw [joinSep_cons₂]
      cases p with
      | nil =>
        simp only [List.nil_append, List.cons_append, List.head?_cons]
        intro h
        exact hqb (Option.some.inj h)
      | cons x t =>
        have := hps (x :: t) (List.mem_cons_self _ _)
        simpa using this

/-- A matcher whose matches start with a quote and whose matched text starts
with the character `hbad` finds nothing in a separated-occurrence text whose
inner body does not start with `hbad`. -/
theorem scanHas_joinSep_false (m : Nat → List Nat → Option Nat) (hbad : Nat)
    (hm : ∀ c r n, m c r = some n → c ∈ quoteCodes)
    (hmh : ∀ c r n, m c r = some n → r.head? = some hbad)
    {q : Nat} (inner : List Nat) (hqb : q ≠ hbad)
    (hin : ∀ x ∈ inner, x ∉ quoteCodes) (hinh : inner.head? ≠ some hbad) :
    ∀ {parts : List (List Nat)},
      (∀ p ∈ parts, (∀ x ∈ p, x ∉ quoteCodes) ∧ p.head? ≠ some hbad) →
      scanHas m (joinSep (q :: inner ++ [q]) parts) = false := by
  intro parts
  induction parts with
  | nil => intro _; rfl
  | cons p ps ih =>
    intro hps
    have hp := hps p (List.mem_cons_self p ps)
    cases ps with
    | nil =>
      exact scanHas_of_no_quote m hm hp.1
    | cons p' ps' =>
      have hJ := ih (fun x hx => hps x (List.mem_cons_of_mem p hx))
      rw [joinSep_cons₂]
      have hsh : p ++ (q :: inner ++ [q]) ++ joinSep (q :: inner ++ [q]) (p' :: ps') =
          p ++ (q :: (inner ++ q :: joinSep (q :: inner ++ [q]) (p' :: ps'))) := by
        simp [List.append_assoc]
      rw [hsh, scanHas_skip m hm _ hp.1, scanHas_cons]
      have hnone1 : m q (inner ++ q :: joinSep (q :: inner ++ [q]) (p' :: ps')) = none := by
        cases hmc : m q (inner ++ q :: joinSep (q :: inner ++ [q]) (p' :: ps')) with
        | none => rfl
        | some n =>
          have := hmh _ _ _ hmc
          cases inner with
          | nil => exact absurd (Option.some.inj (by simpa using this)) hqb
          | cons i t => exact absurd (by simpa using this) (by simpa using hinh)
      rw [hnone1, scanHas_skip m hm _ hin, scanHas_cons]
      have hnone2 : m q (joinSep (q :: inner ++ [q]) (p' :: ps')) = none := by
        cases hmc : m q (joinSep (q :: inner ++ [q]) (p' :: ps')) with
        | none => rfl
        | some n =>
          exact absurd (hmh _ _ _ hmc)
            (joinSep_head (inner ++ [q]) hqb
              (fun x hx => (hps x (List.mem_cons_of_mem p hx)).2))
      rw [hnone2, hJ]
      rfl

/-- A matcher that fires exactly at the opening quote of each separated
occurrence turns `joinSep` over the credential into `joinSep` over the
replacement. -/
theorem scanSub_joinSep (m : Nat → List Nat → Option Nat) (rep : Nat → List Nat)
    (hbad : Nat)
    (hm : ∀ c r n, m c r = some n → c ∈ quoteCodes)
    {q : Nat} (cred : List Nat)
    (hmatch : ∀ b, m q (cred ++ q :: b) = some (cred.length + 1)) :
    ∀ {parts : List (List Nat)},
      (∀ p ∈ parts, (∀ x ∈ p, x ∉ quoteCodes) ∧ p.head? ≠ some hbad) →
      scanSub m rep (joinSep (q :: cred ++ [q]) parts) = joinSep (rep q) parts := by
  intro parts
  induction parts with
  | nil => intro _; rfl
  | cons p ps ih =>
    intro hps
    have hp := hps p (List.mem_cons_self p ps)
    cases ps with
    | nil =>
      exact scanSub_id m rep (scanHas_of_no_quote m hm hp.1)
    | cons p' ps' =>
      have hJ := ih (fun x hx => hps x (List.mem_cons_of_mem p hx))
      rw [joinSep_cons₂]
      have hsh : p ++ (q :: cred ++ [q]) ++ joinSep (q :: cred ++ [q]) (p' :: ps') =
          p ++ (q :: (cred ++ q :: joinSep (q :: cred ++ [q]) (p' :: ps'))) := by
        simp [List.append_assoc]
      rw [hsh, scanSub_skip m rep hm _ hp.1,
        scanSub_cons_some m rep (hmatch (joinSep (q :: cred ++ [q]) (p' :: ps'))),
        drop_cred, hJ, joinSep_cons₂]
      simp [List.append_assoc]

/-! ### The redactor on separated occurrences -/

theorem matchUrlQ_quotes : ∀ c r n, matchUrlQ c r = some n → c ∈ quoteCodes :=
  fun _ _ _ h => matchUrlQ_quote h

theorem matchKeyQ_quotes : ∀ c r n, matchKeyQ c r = some n → c ∈ quoteCodes :=
  fun _ _ _ h => matchKeyQ_quote h

theorem matchUrlQ_heads : ∀ c r n, matchUrlQ c r = some n → r.head? = some 104 :=
  fun _ _ _ h => matchUrlQ_head h

theorem matchKeyQ_heads : ∀ c r n, matchKeyQ c r = some n → r.head? = some 101 :=
  fun _ _ _ h => matchKeyQ_head h

theorem cleanSeg_url {parts : List (List Nat)} (hps : ∀ p ∈ parts, cleanSeg p) :
    ∀ p ∈ parts, (∀ x ∈ p, x ∉ quoteCodes) ∧ p.head? ≠ some 104 :=
  fun p hp => ⟨(hps p hp).1, (hps p hp).2.1⟩

theorem cleanSeg_key {parts : List (List Nat)} (hps : ∀ p ∈ parts, cleanSeg p) :
    ∀ p ∈ parts, (∀ x ∈ p, x ∉ quoteCodes) ∧ p.head? ≠ some 101 :=
  fun p hp => ⟨(hps p hp).1, (hps p hp).2.2⟩

/-- The redactor is the identity when no position matches either pattern. -/
theorem redactTxt_id {s : List Nat} (hu : hasUrlMatch s = false)
    (hk : hasKeyMatch s = false) : redactTxt s = s := by
  unfold redactTxt subUrl subKey
  unfold hasUrlMatch at hu
  unfold hasKeyMatch at hk
  rw [scanSub_id _ _ hu, scanSub_id _ _ hk]

/-- Separated quoted URL occurrences are all replaced, quotes preserved. -/
theorem redact_url_joinSep {q : Nat} (hq : q ∈ quoteCodes)
    {parts : List (List Nat)} (hps : ∀ p ∈ parts, cleanSeg p) :
    redactTxt (joinSep (q :: urlTxt ++ [q]) parts) =
      joinSep (q :: urlReplTxt ++ [q]) parts := by
  have h1 : subUrl (joinSep (q :: urlTxt ++ [q]) parts) =
      joinSep (q :: urlReplTxt ++ [q]) parts := by
    have := scanSub_joinSep matchUrlQ (fun c => c :: urlReplTxt ++ [c]) 104
      matchUrlQ_quotes urlTxt (fun b => matchUrlQ_at hq b) (cleanSeg_url hps)
    simpa [subUrl, scanSub] using this
  have h2 : scanHas matchKeyQ (joinSep (q :: urlReplTxt ++ [q]) parts) = false :=
    scanHas_joinSep_false matchKeyQ 101 matchKeyQ_quotes matchKeyQ_heads
      urlReplTxt (quote_ne_of hq (Or.inr rfl)) (by decide) (by decide)
      (cleanSeg_key hps)
  unfold redactTxt
  rw [h1]
  exact scanSub_id _ _ h2

/-- Separated quoted token occurrences are all replaced, quotes preserved. -/
theorem redact_key_joinSep {q : Nat} (hq : q ∈ quoteCodes) {w1 w2 : List Nat}
    (hw1 : ∀ x ∈ w1, isB64 x = true) (h1 : w1 ≠ [])
    (hw2 : ∀ x ∈ w2, isB64 x = true) (h2 : w2 ≠ [])
    {parts : List (List Nat)} (hps : ∀ p ∈ parts, cleanSeg p) :
    redactTxt (joinSep (q :: (jwtHeadTxt ++ 46 :: w1 ++ 46 :: w2) ++ [q]) parts) =
      joinSep (q :: keyReplTxt ++ [q]) parts := by
  have hin : ∀ x ∈ jwtHeadTxt ++ 46 :: w1 ++ 46 :: w2, x ∉ quoteCodes := by
    intro x hx
    have hjw : ∀ x ∈ jwtHeadTxt, x ∉ quoteCodes := by decide
    simp only [List.mem_append, List.mem_cons] at hx
    rcases hx with (hx | rfl | hx) | rfl | hx
    · exact hjw x hx
    · decide
    · exact isB64_not_quote (hw1 x hx)
    · decide
    · exact isB64_not_quote (hw2 x hx)
  have hinh : (jwtHeadTxt ++ 46 :: w1 ++ 46 :: w2).head? ≠ some 104 := by
    have hh : jwtHeadTxt.head? = some 101 := by decide
    simp [List.head?_append, hh]
  have hfirst : subUrl (joinSep (q :: (jwtHeadTxt ++ 46 :: w1 ++ 46 :: w2) ++ [q]) parts) =
      joinSep (q :: (jwtHeadTxt ++ 46 :: w1 ++ 46 :: w2) ++ [q]) parts := by
    apply scanSub_id
    exact scanHas_joinSep_false matchUrlQ 104 matchUrlQ_quotes matchUrlQ_heads
      (jwtHeadTxt ++ 46 :: w1 ++ 46 :: w2) (quote_ne_of hq (Or.inl rfl))
      hin hinh (cleanSeg_url hps)
  have hmatch : ∀ b, matchKeyQ q ((jwtHeadTxt ++ 46 :: w1 ++ 46 :: w2) ++ q :: b) =
      some ((jwtHeadTxt ++ 46 :: w1 ++ 46 :: w2).length + 1) := by
    intro b
    have hshape : (jwtHeadTxt ++ 46 :: w1 ++ 46 :: w2) ++ q :: b =
        jwtHeadTxt ++ 46 :: (w1 ++ 46 :: (w2 ++ q :: b)) := by
      simp [List.append_assoc]
    rw [hshape, matchKeyQ_at hq hw1 h1 hw2 h2 b]
    congr 1
    simp [List.length_append]
    omega
  have hsecond : subKey (joinSep (q :: (jwtHeadTxt ++ 46 :: w1 ++ 46 :: w2) ++ [q]) parts) =
      joinSep (q :: keyReplTxt ++ [q]) parts := by
    have := scanSub_joinSep matchKeyQ (fun c => c :: keyReplTxt ++ [c]) 101
      matchKeyQ_quotes (jwtHeadTxt ++ 46 :: w1 ++ 46 :: w2) hmatch (cleanSeg_key hps)
    simpa [subKey, scanSub] using this
  unfold redactTxt
  rw [hfirst, hsecond]

/-- The output shape for URL occurrences carries no residual match. -/
theorem residual_url_shape {q : Nat} (hq : q ∈ quoteCodes)
    {parts : List (List Nat)} (hps : ∀ p ∈ parts, cleanSeg p) :
    hasUrlMatch (joinSep (q :: urlReplTxt ++ [q]) parts) = false ∧
      hasKeyMatch (joinSep (q :: urlReplTxt ++ [q]) parts) = false :=
  ⟨scanHas_joinSep_false matchUrlQ 104 matchUrlQ_quotes matchUrlQ_heads
      urlReplTxt (quote_ne_of hq (Or.inl rfl)) (by decide) (by decide)
      (cleanSeg_url hps),
   scanHas_joinSep_false matchKeyQ 101 matchKeyQ_quotes matchKeyQ_heads
      urlReplTxt (quote_ne_of hq (Or.inr rfl)) (by decide) (by decide)
      (cleanSeg_key hps)⟩

/-- The output shape for token occurrences carries no residual match. -/
theorem residual_key_shape {q : Nat} (hq : q ∈ quoteCodes)
    {parts : List (List Nat)} (hps : ∀ p ∈ parts, cleanSeg p) :
    hasUrlMatch (joinSep (q :: keyReplTxt ++ [q]) parts) = false ∧
      hasKeyMatch (joinSep (q :: keyReplTxt ++ [q]) parts) = false :=
  ⟨scanHas_joinSep_false matchUrlQ 104 matchUrlQ_quotes matchUrlQ_heads
      keyReplTxt (quote_ne_of hq (Or.inl rfl)) (by decide) (by decide)
      (cleanSeg_url hps),
   scanHas_joinSep_false matchKeyQ 101 matchKeyQ_quotes matchKeyQ_heads
      keyReplTxt (quote_ne_of hq (Or.inr rfl)) (by decide) (by decide)
      (cleanSeg_key hps)⟩

/-! ### UTF-8 round trip

A successfully decoded byte list re-encodes to itself: the strict decoder
accepts no overlong or surrogate forms, so each decoded code point encodes
back to exactly the bytes consumed. -/

theorem isCont_iff {b : Nat} : isCont b = true ↔ 128 ≤ b ∧ b < 192 := by
  simp [isCont]

theorem utf8DecodeAux_drop : ∀ (s : List Nat) (k : Nat),
    utf8DecodeAux k s = utf8DecodeAux 0 (s.drop k) := by
  intro s
  induction s with
  | nil => intro k; cases k <;> rfl
  | cons c rest ih =>
    intro k
    cases k with
    | zero => rfl
    | succ k => simpa [utf8DecodeAux] using ih k

theorem utf8Decode_cons (b : Nat) (rest : List Nat) :
    utf8Decode (b :: rest) =
      match utf8Step b rest with
      | some (c, k) => (utf8Decode (rest.drop k)).map (fun s => c :: s)
      | none => none := by
  cases h : utf8Step b rest with
  | none => simp [utf8Decode, utf8DecodeAux, h]
  | some ck =>
    cases ck with
    | mk c k => simp [utf8Decode, utf8DecodeAux, h, utf8DecodeAux_drop]

theorem utf8Step_encode {b : Nat} {rest : List Nat} {c k : Nat}
    (h : utf8Step b rest = some (c, k)) : utf8EncodeChar c = b :: rest.take k := by
  unfold utf8Step at h
  by_cases h1 : b < 128
  · rw [if_pos h1] at h
    injection h with h'
    injection h' with e1 e2
    subst e1; subst e2
    unfold utf8EncodeChar
    rw [if_pos h1]
    rfl
  · rw [if_neg h1] at h
    by_cases h2 : b < 224
    · rw [if_pos h2] at h
      by_cases h3 : b < 194
      · rw [if_pos h3] at h
        exact absurd h (by simp)
      · rw [if_neg h3] at h
        cases rest with
        | nil => exact absurd h (by simp)
        | cons b1 t =>
          dsimp only at h
          by_cases hc : isCont b1 = true
          · rw [if_pos hc] at h
            injection h with h'
            injection h' with e1 e2
            subst e1; subst e2
            rw [isCont_iff] at hc
            unfold utf8EncodeChar
            rw [if_neg (by omega), if_pos (by omega)]
            have d1 : 192 + ((b - 192) * 64 + (b1 - 128)) / 64 = b := by omega
            have d2 : 128 + ((b - 192) * 64 + (b1 - 128)) % 64 = b1 := by omega
            rw [d1, d2]
            rfl
          · rw [if_neg hc] at h
            exact absurd h (by simp)
    · rw [if_neg h2] at h
      by_cases h4 : b < 240
      · rw [if_pos h4] at h
        match t3 : rest with
        | [] => exact absurd h (by simp)
        | [b1] => exact absurd h (by simp)
        | b1 :: b2 :: t =>
          dsimp only at h
          by_cases hc : isCont b1 = true ∧ isCont b2 = true ∧ (b = 224 → 160 ≤ b1) ∧
              (b = 237 → b1 < 160)
          · rw [if_pos hc] at h
            injection h with h'
            injection h' with e1 e2
            subst e1; subst e2
            obtain ⟨hc1, hc2, hi1, _⟩ := hc
            rw [isCont_iff] at hc1 hc2
            unfold utf8EncodeChar
            rw [if_neg (by omega), if_neg (by omega), if_pos (by omega)]
            have d1 : 224 + ((b - 224) * 4096 + (b1 - 128) * 64 + (b2 - 128)) / 4096 = b := by
              omega
            have d2 : 128 + ((b - 224) * 4096 + (b1 - 128) * 64 + (b2 - 128)) / 64 % 64 = b1 := by
              omega
            have d3 : 128 + ((b - 224) * 4096 + (b1 - 128) * 64 + (b2 - 128)) % 64 = b2 := by
              omega
            rw [d1, d2, d3]
            rfl
          · rw [if_neg hc] at h
            exact absurd h (by simp)
      · rw [if_neg h4] at h
        by_cases h5 : b < 245
        · rw [if_pos h5] at h
          match t4 : rest with
          | [] => exact absurd h (by simp)
          | [b1] => exact absurd h (by simp)
          | [b1, b2] => exact absurd h (by simp)
          | b1 :: b2 :: b3 :: t =>
            dsimp only at h
            by_cases hc : isCont b1 = true ∧ isCont b2 = true ∧ isCont b3 = true ∧
                (b = 240 → 144 ≤ b1) ∧ (b = 244 → b1 < 144)
            · rw [if_pos hc] at h
              injection h with h'
              injection h' with e1 e2
              subst e1; subst e2
              obtain ⟨hc1, hc2, hc3, hi1, _⟩ := hc
              rw [isCont_iff] at hc1 hc2 hc3
              unfold utf8EncodeChar
              rw [if_neg (by omega), if_neg (by omega), if_neg (by omega)]
              have d1 : 240 + ((b - 240) * 262144 + (b1 - 128) * 4096 + (b2 - 128) * 64 +
                  (b3 - 128)) / 262144 = b := by omega
              have d2 : 128 + ((b - 240) * 262144 + (b1 - 128) * 4096 + (b2 - 128) * 64 +
                  (b3 - 128)) / 4096 % 64 = b1 := by omega
              have d3 : 128 + ((b - 240) * 262144 + (b1 - 128) * 4096 + (b2 - 128) * 64 +
                  (b3 - 128)) / 64 % 64 = b2 := by omega
              have d4 : 128 + ((b - 240) * 262144 + (b1 - 128) * 4096 + (b2 - 128) * 64 +
                  (b3 - 128)) % 64 = b3 := by omega
              rw [d1, d2, d3, d4]
              rfl
            · rw [if_neg hc] at h
              exact absurd h (by simp)
        · rw [if_neg h5] at h
          exact absurd h (by simp)

theorem utf8_decode_encode_aux :
    ∀ (n : Nat) (bs : List Nat), bs.length ≤ n → ∀ s, utf8Decode bs = some s →
      utf8Encode s = bs := by
  intro n
  induction n with
  | zero =>
    intro bs hlen s h
    have hbs : bs = [] := List.eq_nil_of_length_eq_zero (Nat.le_zero.mp hlen)
    subst hbs
    injection h with h'
    subst h'
    rfl
  | succ n ih =>
    intro bs hlen s h
    cases bs with
    | nil =>
      injection h with h'
      subst h'
      rfl
    | cons b rest =>
      rw [utf8Decode_cons] at h
      cases hstep : utf8Step b rest with
      | none => rw [hstep] at h; exact absurd h (by simp)
      | some ck =>
        cases ck with
        | mk c k =>
          rw [hstep] at h
          rw [Option.map_eq_some'] at h
          obtain ⟨s', hs', rfl⟩ := h
          have hlen' : (rest.drop k).length ≤ n := by
            simp only [List.length_drop]
            simp only [List.length_cons] at hlen
            omega
          calc utf8Encode (c :: s') = utf8EncodeChar c ++ utf8Encode s' := rfl
            _ = (b :: rest.take k) ++ rest.drop k := by
                rw [utf8Step_encode hstep, ih _ hlen' s' hs']
            _ = b :: rest := by
                simp [List.take_append_drop]

theorem utf8_decode_encode {bs s : List Nat} (h : utf8Decode bs = some s) :
    utf8Encode s = bs :=
  utf8_decode_encode_aux bs.length bs le_rfl s h
/-! ### Non-matching occurrences -/

theorem match_none_of_head {m : Nat → List Nat → Option Nat} {hbad : Nat}
    (hmh : ∀ c r n, m c r = some n → r.head? = some hbad)
    {c : Nat} {r : List Nat} (h : r.head? ≠ some hbad) : m c r = none := by
  cases hmc : m c r with
  | none => rfl
  | some n => exact absurd (hmh _ _ _ hmc) h

theorem matchUrlQ_nil (c : Nat) : matchUrlQ c [] = none := by
  unfold matchUrlQ
  rw [if_neg]
  rintro ⟨-, h⟩
  rw [List.take_nil] at h
  have hu : urlTxt = 104 :: urlTxt.tail := by decide
  rw [hu] at h
  simp at h

theorem matchKeyQ_nil (c : Nat) : matchKeyQ c [] = none := by
  unfold matchKeyQ
  rw [if_neg]
  rintro ⟨-, h⟩
  rw [List.take_nil] at h
  have hu : jwtHeadTxt = 101 :: jwtHeadTxt.tail := by decide
  rw [hu] at h
  simp at h

theorem urlTxt_no_quote : ∀ x ∈ urlTxt, x ∉ quoteCodes := by decide

theorem matchUrlQ_mismatch {q1 q2 : Nat} (hne : q2 ≠ q1) :
    matchUrlQ q1 (urlTxt ++ [q2]) = none := by
  unfold matchUrlQ
  rw [if_neg]
  rintro ⟨-, h⟩
  rw [List.take_of_length_le (by simp)] at h
  have h2 := List.append_cancel_left h
  injection h2 with h3
  exact hne h3

theorem matchKeyQ_mismatch {c q2 : Nat} (hq2 : isB64 q2 = false) (hne : q2 ≠ c)
    {w1 w2 : List Nat} (hw1 : ∀ x ∈ w1, isB64 x = true)
    (hw2 : ∀ x ∈ w2, isB64 x = true) (b : List Nat) :
    matchKeyQ c (jwtHeadTxt ++ 46 :: (w1 ++ 46 :: (w2 ++ q2 :: b))) = none := by
  unfold matchKeyQ
  by_cases hcond : c ∈ quoteCodes ∧
      (jwtHeadTxt ++ 46 :: (w1 ++ 46 :: (w2 ++ q2 :: b))).take (jwtHeadTxt.length + 1) =
        jwtHeadTxt ++ [46]
  · rw [if_pos hcond]
    have hsplit : jwtHeadTxt ++ 46 :: (w1 ++ 46 :: (w2 ++ q2 :: b)) =
        (jwtHeadTxt ++ [46]) ++ (w1 ++ 46 :: (w2 ++ q2 :: b)) := by
      simp [List.append_assoc]
    have h46 : isB64 46 = false := by decide
    have hf1 := whileFrontier isB64 w1 46 (w2 ++ q2 :: b) hw1 h46
    have hf2 := whileFrontier isB64 w2 q2 b hw2 hq2
    rw [hsplit, List.drop_left' (by simp)]
    simp only [hf1.1, hf1.2]
    by_cases h1 : w1 = []
    · rw [if_pos h1]
    · rw [if_neg h1]
      simp only [hf2.1, hf2.2]
      by_cases h2 : w2 = []
      · rw [if_pos h2]
      · rw [if_neg h2, if_neg hne]
  · rw [if_neg hcond]

theorem keyBody_no_quote {w1 w2 : List Nat} (hw1 : ∀ x ∈ w1, isB64 x = true)
    (hw2 : ∀ x ∈ w2, isB64 x = true) :
    ∀ x ∈ jwtHeadTxt ++ 46 :: w1 ++ 46 :: w2, x ∉ quoteCodes := by
  intro x hx
  have hjw : ∀ x ∈ jwtHeadTxt, x ∉ quoteCodes := by decide
  simp only [List.mem_append, List.mem_cons] at hx
  rcases hx with (hx | rfl | hx) | rfl | hx
  · exact hjw x hx
  · decide
  · exact isB64_not_quote (hw1 x hx)
  · decide
  · exact isB64_not_quote (hw2 x hx)

theorem redact_bare_url : redactTxt urlTxt = urlTxt :=
  redactTxt_id (scanHas_of_no_quote _ matchUrlQ_quotes urlTxt_no_quote)
    (scanHas_of_no_quote _ matchKeyQ_quotes urlTxt_no_quote)

theorem redact_mismatched_url {q1 q2 : Nat} (hne : q1 ≠ q2) :
    redactTxt (q1 :: (urlTxt ++ [q2])) = q1 :: (urlTxt ++ [q2]) := by
  have hu : hasUrlMatch (q1 :: (urlTxt ++ [q2])) = false := by
    unfold hasUrlMatch
    rw [scanHas_cons, matchUrlQ_mismatch (fun h => hne h.symm),
      scanHas_skip _ matchUrlQ_quotes _ urlTxt_no_quote, scanHas_cons,
      matchUrlQ_nil]
    rfl
  have hk : hasKeyMatch (q1 :: (urlTxt ++ [q2])) = false := by
    have hh : (urlTxt ++ [q2]).head? ≠ some 101 := by
      have h1 : urlTxt = 104 :: urlTxt.tail := by decide
      rw [h1]
      simp
    unfold hasKeyMatch
    rw [scanHas_cons, match_none_of_head matchKeyQ_heads hh,
      scanHas_skip _ matchKeyQ_quotes _ urlTxt_no_quote, scanHas_cons,
      matchKeyQ_nil]
    rfl
  exact redactTxt_id hu hk

theorem redact_bare_key {w1 w2 : List Nat} (hw1 : ∀ x ∈ w1, isB64 x = true)
    (hw2 : ∀ x ∈ w2, isB64 x = true) :
    redactTxt (jwtHeadTxt ++ 46 :: w1 ++ 46 :: w2) =
      jwtHeadTxt ++ 46 :: w1 ++ 46 :: w2 :=
  redactTxt_id
    (scanHas_of_no_quote _ matchUrlQ_quotes (keyBody_no_quote hw1 hw2))
    (scanHas_of_no_quote _ matchKeyQ_quotes (keyBody_no_quote hw1 hw2))

theorem redact_mismatched_key {q1 q2 : Nat} (hq2 : q2 ∈ quoteCodes)
    (hne : q1 ≠ q2) {w1 w2 : List Nat} (hw1 : ∀ x ∈ w1, isB64 x = true)
    (hw2 : ∀ x ∈ w2, isB64 x = true) :
    redactTxt (q1 :: ((jwtHeadTxt ++ 46 :: w1 ++ 46 :: w2) ++ [q2])) =
      q1 :: ((jwtHeadTxt ++ 46 :: w1 ++ 46 :: w2) ++ [q2]) := by
  have hshape : (jwtHeadTxt ++ 46 :: w1 ++ 46 :: w2) ++ [q2] =
      jwtHeadTxt ++ 46 :: (w1 ++ 46 :: (w2 ++ q2 :: [])) := by
    simp [List.append_assoc]
  have hh : ((jwtHeadTxt ++ 46 :: w1 ++ 46 :: w2) ++ [q2]).head? ≠ some 104 := by
    have h1 : jwtHeadTxt.head? = some 101 := by decide
    simp [List.head?_append, h1]
  have hu : hasUrlMatch (q1 :: ((jwtHeadTxt ++ 46 :: w1 ++ 46 :: w2) ++ [q2])) = false := by
    unfold hasUrlMatch
    rw [scanHas_cons, match_none_of_head matchUrlQ_heads hh,
      scanHas_skip _ matchUrlQ_quotes _ (keyBody_no_quote hw1 hw2), scanHas_cons,
      matchUrlQ_nil]
    rfl
  have hkm : matchKeyQ q1 ((jwtHeadTxt ++ 46 :: w1 ++ 46 :: w2) ++ [q2]) = none := by
    rw [hshape]
    exact matchKeyQ_mismatch (isB64_quote_false hq2) (fun h => hne h.symm) hw1 hw2 []
  have hk : hasKeyMatch (q1 :: ((jwtHeadTxt ++ 46 :: w1 ++ 46 :: w2) ++ [q2])) = false := by
    unfold hasKeyMatch
    rw [scanHas_cons, hkm,
      scanHas_skip _ matchKeyQ_quotes _ (keyBody_no_quote hw1 hw2), scanHas_cons,
      matchKeyQ_nil]
    rfl
  exact redactTxt_id hu hk
/-! ### Claim theorems -/

theorem redactBytes_some {bs s : List Nat} (h : utf8Decode bs = some s) :
    redactBytes bs = utf8Encode (redactTxt s) := by
  simp [redactBytes, runRedactor, h]

theorem redactBytes_none {bs : List Nat} (h : utf8Decode bs = none) :
    redactBytes bs = bs := by
  simp [redactBytes, runRedactor, h]

/-- C1 (counterexample): the input double quote, URL, double quote, URL,
double quote carries a quoted-URL occurrence at position 0 and another at
position 41, but the redactor's output keeps the second occurrence
unreplaced — the scan consumed the shared middle quote — so the output
still carries a quoted-URL occurrence. -/
theorem c1_counterexample :
    matchUrlQ 34 (urlTxt ++ 34 :: urlTxt ++ [34]) = some 41 ∧
    matchUrlQ 34 (urlTxt ++ [34]) = some 41 ∧
    redactTxt urlOverlapTxt = 34 :: urlReplTxt ++ 34 :: urlTxt ++ [34] ∧
    hasUrlMatch (redactTxt urlOverlapTxt) = true := by decide

/-- C1 (amended): occurrences of a quoted URL that do not share a quote
character — here, separated by segments free of quotes and not starting
with the first character of either credential — are all replaced by the
placeholder surrounded by the same quote character. -/
theorem c1_url_substitution {q : Nat} (hq : q ∈ quoteCodes)
    {parts : List (List Nat)} (hps : ∀ p ∈ parts, cleanSeg p) :
    redactTxt (joinSep (q :: urlTxt ++ [q]) parts) =
      joinSep (q :: urlReplTxt ++ [q]) parts :=
  redact_url_joinSep hq hps

/-- C1 (witness): two double-quoted URL occurrences in context are both
replaced. -/
theorem c1_witness :
    redactTxt (joinSep (34 :: urlTxt ++ [34])
        [strTxt "x = ", strTxt ", y = ", strTxt ";"]) =
      joinSep (34 :: urlReplTxt ++ [34])
        [strTxt "x = ", strTxt ", y = ", strTxt ";"] :=
  c1_url_substitution (by decide) (by decide)

/-- C2 (counterexample): two backtick-quoted tokens sharing the middle
backtick; only the first is replaced and the output still carries a
quoted-token occurrence. -/
theorem c2_counterexample :
    redactTxt keyOverlapTxt = 96 :: keyReplTxt ++ 96 :: keyTokTxt ++ [96] ∧
    hasKeyMatch (redactTxt keyOverlapTxt) = true := by decide

/-- C2 (amended): occurrences of a quoted three-segment token with the fixed
first segment and nonempty base64url second and third segments that do not
share a quote character are all replaced by the placeholder surrounded by
the same quote character. -/
theorem c2_key_substitution {q : Nat} (hq : q ∈ quoteCodes) {w1 w2 : List Nat}
    (hw1 : ∀ x ∈ w1, isB64 x = true) (h1 : w1 ≠ [])
    (hw2 : ∀ x ∈ w2, isB64 x = true) (h2 : w2 ≠ [])
    {parts : List (List Nat)} (hps : ∀ p ∈ parts, cleanSeg p) :
    redactTxt (joinSep (q :: (jwtHeadTxt ++ 46 :: w1 ++ 46 :: w2) ++ [q]) parts) =
      joinSep (q :: keyReplTxt ++ [q]) parts :=
  redact_key_joinSep hq hw1 h1 hw2 h2 hps

/-- C2 (witness): the spec's backtick-quoted example token becomes the
backtick-quoted placeholder. -/
theorem c2_witness :
    redactTxt (joinSep (96 :: (jwtHeadTxt ++ 46 :: keySeg1 ++ 46 :: keySeg2) ++ [96])
        [[], []]) =
      joinSep (96 :: keyReplTxt ++ [96]) [[], []] :=
  c2_key_substitution (by decide) (by decide) (by decide) (by decide) (by decide)
    (by decide)

/-- C3 (counterexample): the redactor is not idempotent on the overlapping
input: the first run leaves a quoted URL in its output, which the second
run then replaces. -/
theorem c3_counterexample :
    redactBytes (redactBytes urlOverlapBytes) ≠ redactBytes urlOverlapBytes := by
  decide

/-- C3 (amended): the redactor is idempotent on every input whose output is
residual-free, that is, whose output decodes to text with no occurrence of
either pattern (the placeholders themselves match neither pattern); only a
replacement adjoining remaining text into a fresh match, as with
overlapping occurrences, breaks this. -/
theorem c3_idempotent_of_residualFree (bs : List Nat)
    (h : residualFree (redactBytes bs) = true) :
    redactBytes (redactBytes bs) = redactBytes bs := by
  unfold residualFree at h
  cases hdec : utf8Decode (redactBytes bs) with
  | none => exact redactBytes_none hdec
  | some t =>
    rw [hdec] at h
    simp only [Bool.not_eq_true', Bool.or_eq_false_iff] at h
    rw [redactBytes_some hdec, redactTxt_id h.1 h.2]
    exact utf8_decode_encode hdec

/-- C3 (witness): redacting a single double-quoted URL is idempotent. -/
theorem c3_witness :
    residualFree (redactBytes
        (strBytes "\"https://piyqnldhdxkmuwqajkhz.supabase.co\"")) = true ∧
    redactBytes (redactBytes
        (strBytes "\"https://piyqnldhdxkmuwqajkhz.supabase.co\"")) =
      redactBytes (strBytes "\"https://piyqnldhdxkmuwqajkhz.supabase.co\"") :=
  ⟨by decide, c3_idempotent_of_residualFree _ (by decide)⟩

/-- C4: when the input bytes are not valid UTF-8, the redactor writes the
original bytes unchanged. -/
theorem c4_binary_passthrough (bs : List Nat) (h : utf8Decode bs = none) :
    redactBytes bs = bs :=
  redactBytes_none h

/-- C4 (witness): the spec's example bytes `ff fe 00 01` fail to decode and
pass through unchanged. -/
theorem c4_witness :
    utf8Decode [255, 254, 0, 1] = none ∧
    redactBytes [255, 254, 0, 1] = [255, 254, 0, 1] :=
  ⟨by decide, c4_binary_passthrough _ (by decide)⟩

/-- C5: valid-UTF-8 input with no occurrence of either quoted credential
pattern is returned byte-for-byte: the strict decode re-encodes to the
original bytes and the substitutions change nothing. -/
theorem c5_nonmatch_passthrough (bs s : List Nat) (hdec : utf8Decode bs = some s)
    (hu : hasUrlMatch s = false) (hk : hasKeyMatch s = false) :
    redactBytes bs = bs := by
  rw [redactBytes_some hdec, redactTxt_id hu hk]
  exact utf8_decode_encode hdec

/-- C5 (witness): `hello world` and the empty input pass through. -/
theorem c5_witness :
    redactBytes (strBytes "hello world") = strBytes "hello world" ∧
    redactBytes [] = [] :=
  ⟨c5_nonmatch_passthrough _ (strTxt "hello world") (by decide) (by decide)
      (by decide),
   c5_nonmatch_passthrough [] [] (by decide) (by decide) (by decide)⟩

/-- C6: every GET request, on any path, yields status 200, the
`Content-type: text/html` and `Access-Control-Allow-Origin: *` headers,
and a body containing the requested path and the port 8080 as text. -/
theorem c6_get_response (path version cwd dateTime : String) :
    (do_GET path version cwd dateTime).status = 200 ∧
    ("Content-type", "text/html") ∈ (do_GET path version cwd dateTime).headers ∧
    ("Access-Control-Allow-Origin", "*") ∈ (do_GET path version cwd dateTime).headers ∧
    path.data <:+: (do_GET path version cwd dateTime).body.data ∧
    ("8080" : String).data <:+: (do_GET path version cwd dateTime).body.data := by
  refine ⟨rfl, by simp [do_GET], by simp [do_GET], ?_, ?_⟩
  · refine ⟨(htmlHead version ++ toString PORT ++ htmlMid cwd).data,
      (htmlTail dateTime).data, ?_⟩
    simp [do_GET, htmlPage, String.data_append, List.append_assoc]
  · have hp : ("8080" : String) = toString PORT := by decide
    rw [hp]
    refine ⟨(htmlHead version).data,
      (htmlMid cwd ++ path ++ htmlTail dateTime).data, ?_⟩
    simp [do_GET, htmlPage, String.data_append, List.append_assoc]

/-- C7: the redactor is total: for every input it terminates with exit
status 0, and its output is either the input bytes untouched (decode
failed) or the re-encoded redaction of the decoded text. -/
theorem c7_total_exit_zero (bs : List Nat) :
    (runRedactor bs).2 = 0 ∧
      ((utf8Decode bs = none ∧ (runRedactor bs).1 = bs) ∨
        ∃ s, utf8Decode bs = some s ∧ (runRedactor bs).1 = utf8Encode (redactTxt s)) := by
  cases hdec : utf8Decode bs with
  | none =>
    exact ⟨by simp [runRedactor, hdec], Or.inl ⟨rfl, by simp [runRedactor, hdec]⟩⟩
  | some s =>
    exact ⟨by simp [runRedactor, hdec], Or.inr ⟨s, rfl, by simp [runRedactor, hdec]⟩⟩

/-- C8 (counterexample): on overlapping occurrences the output retains a
quoted-URL match, respectively a quoted-token match. -/
theorem c8_counterexample :
    hasUrlMatch (redactTxt urlOverlapTxt) = true ∧
    hasKeyMatch (redactTxt keyOverlapTxt) = true := by decide

/-- C8 (amended): for separated occurrences of either credential the output
carries no occurrence of either quoted credential pattern at any position:
every match is replaced and the replacements create no new match. -/
theorem c8_no_residual_separated {q : Nat} (hq : q ∈ quoteCodes)
    {parts : List (List Nat)} (hps : ∀ p ∈ parts, cleanSeg p)
    {w1 w2 : List Nat} (hw1 : ∀ x ∈ w1, isB64 x = true) (h1 : w1 ≠ [])
    (hw2 : ∀ x ∈ w2, isB64 x = true) (h2 : w2 ≠ []) :
    (hasUrlMatch (redactTxt (joinSep (q :: urlTxt ++ [q]) parts)) = false ∧
      hasKeyMatch (redactTxt (joinSep (q :: urlTxt ++ [q]) parts)) = false) ∧
    (hasUrlMatch (redactTxt
        (joinSep (q :: (jwtHeadTxt ++ 46 :: w1 ++ 46 :: w2) ++ [q]) parts)) = false ∧
      hasKeyMatch (redactTxt
        (joinSep (q :: (jwtHeadTxt ++ 46 :: w1 ++ 46 :: w2) ++ [q]) parts)) = false) := by
  rw [redact_url_joinSep hq hps, redact_key_joinSep hq hw1 h1 hw2 h2 hps]
  exact ⟨residual_url_shape hq hps, residual_key_shape hq hps⟩

/-- C8 (witness): concrete separated occurrences leave no residual. -/
theorem c8_witness :
    (hasUrlMatch (redactTxt (joinSep (39 :: urlTxt ++ [39])
        [strTxt "a = ", strTxt ";"])) = false ∧
      hasKeyMatch (redactTxt (joinSep (39 :: urlTxt ++ [39])
        [strTxt "a = ", strTxt ";"])) = false) ∧
    (hasUrlMatch (redactTxt
        (joinSep (39 :: (jwtHeadTxt ++ 46 :: keySeg1 ++ 46 :: keySeg2) ++ [39])
          [strTxt "a = ", strTxt ";"])) = false ∧
      hasKeyMatch (redactTxt
        (joinSep (39 :: (jwtHeadTxt ++ 46 :: keySeg1 ++ 46 :: keySeg2) ++ [39])
          [strTxt "a = ", strTxt ";"])) = false) :=
  c8_no_residual_separated (by decide) (by decide) (by decide) (by decide)
    (by decide) (by decide)

/-- C9: an occurrence of the URL literal or of a well-formed token that is
bare, or surrounded by two different quote characters, is left unchanged
by the redactor. -/
theorem c9_unquoted_or_mismatched_unchanged (q1 q2 : Nat) (w1 w2 : List Nat)
    (_hq1 : q1 ∈ quoteCodes) (hq2 : q2 ∈ quoteCodes) (hne : q1 ≠ q2)
    (hw1 : ∀ x ∈ w1, isB64 x = true) (hw2 : ∀ x ∈ w2, isB64 x = true) :
    redactTxt urlTxt = urlTxt ∧
    redactTxt (q1 :: (urlTxt ++ [q2])) = q1 :: (urlTxt ++ [q2]) ∧
    redactTxt (jwtHeadTxt ++ 46 :: w1 ++ 46 :: w2) =
      jwtHeadTxt ++ 46 :: w1 ++ 46 :: w2 ∧
    redactTxt (q1 :: ((jwtHeadTxt ++ 46 :: w1 ++ 46 :: w2) ++ [q2])) =
      q1 :: ((jwtHeadTxt ++ 46 :: w1 ++ 46 :: w2) ++ [q2]) :=
  ⟨redact_bare_url, redact_mismatched_url hne, redact_bare_key hw1 hw2,
   redact_mismatched_key hq2 hne hw1 hw2⟩

/-- C9 (witness): a double-quote opening with a backtick closing, and bare
occurrences, all pass through unchanged. -/
theorem c9_witness :
    redactTxt urlTxt = urlTxt ∧
    redactTxt (34 :: (urlTxt ++ [96])) = 34 :: (urlTxt ++ [96]) ∧
    redactTxt (jwtHeadTxt ++ 46 :: keySeg1 ++ 46 :: keySeg2) =
      jwtHeadTxt ++ 46 :: keySeg1 ++ 46 :: keySeg2 ∧
    redactTxt (34 :: ((jwtHeadTxt ++ 46 :: keySeg1 ++ 46 :: keySeg2) ++ [96])) =
      34 :: ((jwtHeadTxt ++ 46 :: keySeg1 ++ 46 :: keySeg2) ++ [96]) :=
  c9_unquoted_or_mismatched_unchanged 34 96 keySeg1 keySeg2 (by decide) (by decide)
    (by decide) (by decide) (by decide)

/-- C10: a bind failure prints one line `Error starting server: ...`,
exits with status 0 and never reaches the banner or the serving loop; any
exception escaping setup or serving likewise lands in the catch-all
handler, prints the same-prefixed line, and the process ends with status
0. -/
theorem c10_catchall_error_exit (e : String) (sr : Except String Unit) :
    ((serverMain (Except.error e) sr).served = false ∧
      (serverMain (Except.error e) sr).startupPrinted = [] ∧
      (serverMain (Except.error e) sr).exitCode = 0 ∧
      (serverMain (Except.error e) sr).errPrint =
        some ("Error starting server: " ++ e)) ∧
    ∀ (br : Except String Unit) (e2 : String),
      (serverMain br (Except.error e2)).exitCode = 0 ∧
      ∃ m, (serverMain br (Except.error e2)).errPrint = some m ∧
        ∃ r, m = "Error starting server: " ++ r := by
  refine ⟨⟨rfl, rfl, rfl, rfl⟩, ?_⟩
  intro br e2
  cases br with
  | error e3 => exact ⟨rfl, "Error starting server: " ++ e3, rfl, e3, rfl⟩
  | ok u => exact ⟨rfl, "Error starting server: " ++ e2, rfl, e2, rfl⟩
